import Mathlib

/-!
# Verification of the personal-disorganizer task core

Shallow embedding of the in-memory task model of the repository:
the day compositor (`getTasksForDate` / `updateTasksForCurrentDate`),
the hierarchical insertion engine (`insertTaskAtPosition`), the
cross-day move engine (`moveTaskUp` / `moveTaskDown` and helpers), and
the fuzzy search engine (`calculateScore` / `Search`).

Modelling conventions:
* Go strings are modelled as rune sequences (`List Char`); the repo
  only ever walks strings rune-by-rune or compares them wholesale.
* `time.Time` values are modelled as `Int`.  Every date the modelled
  code manipulates is a midnight multiple (`time.Now().Truncate(24h)`
  shifted by whole days), so dates are represented by their day
  number: `Truncate(24 * time.Hour)` becomes the identity `trunc`,
  `Add(±24 * time.Hour)` becomes `± 1`, and `Before` becomes `<`.
  Calendar-event start times are likewise `Int` with `Before` as `<`.
* Go `int` is modelled as `Int` (no operation here approaches 2^63).
-/

namespace PD

/-- Model of `storage.Task` (internal/storage/persistence.go). -/
structure Task where
  id : String
  text : List Char
  done : Bool
  date : Int
  isCalendar : Bool
  startTime : Int
  priority : Int
  createdAt : Int
  level : Int
deriving DecidableEq

/-- Model of `Truncate(24 * time.Hour)`: the identity at day granularity. -/
def trunc (t : Int) : Int := t

/-- The `less` closure passed to `sort.Slice` in `getTasksForDate` and
`updateTasksForCurrentDate`: calendar events first, events ascending by
start time, other tasks descending by priority. -/
def taskLess (a b : Task) : Bool :=
  if a.isCalendar != b.isCalendar then a.isCalendar
  else if a.isCalendar && b.isCalendar then decide (a.startTime < b.startTime)
  else decide (b.priority < a.priority)

/-- The non-strict order induced by `taskLess`; `sort.Slice` guarantees
its output is sorted with respect to this relation. -/
def taskLe (a b : Task) : Prop := taskLess b a = false

instance : DecidableRel taskLe := fun a b =>
  inferInstanceAs (Decidable (taskLess b a = false))

instance : IsTotal Task taskLe := by
  constructor
  intro a b
  unfold taskLe taskLess
  cases ha : a.isCalendar <;> cases hb : b.isCalendar <;>
    simp_all <;> omega

instance : IsTrans Task taskLe := by
  constructor
  intro a b c hab hbc
  unfold taskLe taskLess at *
  cases ha : a.isCalendar <;> cases hb : b.isCalendar <;>
    cases hc : c.isCalendar <;> simp_all <;> omega

/-- Model of `sort.Slice(tasks, taskLess)`, realised as an insertion sort;
any order consistent with `taskLess` is a faithful model since
`sort.Slice` is unstable. -/
def sortTasks (l : List Task) : List Task := List.insertionSort taskLe l

/-- Model of `getTasksForDate` (app model): tasks of one day, sorted. -/
def getTasksForDate (allTasks : List Task) (date : Int) : List Task :=
  sortTasks (allTasks.filter fun t => trunc t.date == trunc date)

/-- Model of `updateTasksForCurrentDate` (the Day Compositor): the day's
calendar events followed by the day's stored tasks, sorted. -/
def updateTasksForCurrentDate (allTasks calendarTasks : List Task)
    (currentDate : Int) : List Task :=
  sortTasks (calendarTasks ++ allTasks.filter fun t => trunc t.date == currentDate)

theorem sortTasks_sorted (l : List Task) : (sortTasks l).Sorted taskLe :=
  List.sorted_insertionSort taskLe l

theorem sortTasks_perm (l : List Task) : (sortTasks l).Perm l :=
  List.perm_insertionSort taskLe l

theorem taskLe_spec {a b : Task} (h : taskLe a b) :
    (b.isCalendar = true → a.isCalendar = true) ∧
    (a.isCalendar = true → b.isCalendar = true → a.startTime ≤ b.startTime) ∧
    (a.isCalendar = false → b.isCalendar = false → b.priority ≤ a.priority) := by
  unfold taskLe taskLess at h
  cases ha : a.isCalendar <;> cases hb : b.isCalendar <;>
    simp_all <;> omega

/-- An entry of the scrollable list (`ListItem` in the app model);
only the fields `insertTaskAtPosition` reads. -/
structure ListItem where
  itemType : String
  task : Option Task
  date : Int

/-- Model of `insertTaskAtPosition` (the Hierarchical Insertion Engine): choose
the new task's priority from the current selection and append it. -/
def insertTaskAtPosition (selectedItem : Option ListItem)
    (allTasks : List Task) (newTask : Task) (targetDate : Int) : List Task :=
  let dayTasks := getTasksForDate allTasks targetDate
  match selectedItem with
  | none => allTasks ++ [{ newTask with priority := 1 }]
  | some item =>
    if dayTasks.isEmpty then
      allTasks ++ [{ newTask with priority := 1 }]
    else if item.itemType == "add_button" then
      let minPriority := dayTasks.foldl
        (fun acc t => if !t.isCalendar && t.priority < acc then t.priority else acc) 0
      allTasks ++ [{ newTask with priority := minPriority - 1 }]
    else if item.itemType == "task" then
      match item.task with
      | some selectedTask =>
        let endPriority := dayTasks.foldl
          (fun acc t =>
            if !t.isCalendar && t.priority < selectedTask.priority &&
               selectedTask.level < t.level && t.priority < acc
            then t.priority else acc)
          (selectedTask.priority - 1)
        allTasks ++ [{ newTask with priority := endPriority - 1 }]
      | none => allTasks ++ [{ newTask with priority := 1 }]
    else
      allTasks ++ [{ newTask with priority := 1 }]

/-- The `for i := range m.appData.Tasks { if ID matches { mutate; break } }`
pattern shared by `moveTaskWithinDay` and `moveTaskToDay`: rewrite the
first task with the given id, leave everything else untouched. -/
def updateFirst (taskID : String) (f : Task → Task) : List Task → List Task
  | [] => []
  | t :: ts => if t.id == taskID then f t :: ts else t :: updateFirst taskID f ts

/-- The `localIndex` scan of `moveTaskUp` / `moveTaskDown`: index and
value of the first task with the given id. -/
def findTask (taskID : String) : List Task → Option (Nat × Task)
  | [] => none
  | t :: ts =>
    if t.id == taskID then some (0, t)
    else (findTask taskID ts).map fun p => (p.1 + 1, p.2)

/-- Model of `moveTaskWithinDay`: bump the task's priority by one in the move
direction (`toIndex < fromIndex` means up). -/
def moveTaskWithinDay (allTasks : List Task) (taskID : String)
    (fromIndex toIndex : Nat) : List Task :=
  updateFirst taskID
    (fun t =>
      if toIndex < fromIndex then { t with priority := t.priority + 1 }
      else { t with priority := t.priority - 1 })
    allTasks

/-- Model of `moveTaskToDay`: reassign the task's date, then scan the already
updated collection (the moved task included) for the target day's
min/max priority, then reassign the task's priority. -/
def moveTaskToDay (allTasks : List Task) (taskID : String)
    (fromDate toDate : Int) (position : Int) : List Task :=
  let ts1 := updateFirst taskID (fun t => { t with date := toDate }) allTasks
  if position == -1 then
    let minPriority := ts1.foldl
      (fun acc t =>
        if trunc t.date == trunc toDate && !t.isCalendar && t.priority < acc
        then t.priority else acc) 0
    updateFirst taskID (fun t => { t with priority := minPriority - 1 }) ts1
  else
    let maxPriority := ts1.foldl
      (fun acc t =>
        if trunc t.date == trunc toDate && !t.isCalendar && acc < t.priority
        then t.priority else acc) 0
    updateFirst taskID (fun t => { t with priority := maxPriority + 1 }) ts1

/-- Model of `moveTaskUp`: within-day swap, or transfer to the previous day
unless that day lies before `m.currentDate`. -/
def moveTaskUp (allTasks : List Task) (currentDate : Int)
    (date : Int) (taskID : String) : List Task :=
  let tasks := getTasksForDate allTasks date
  match findTask taskID tasks with
  | none => allTasks
  | some (localIndex, t) =>
    if t.isCalendar then allTasks
    else if 0 < localIndex then
      moveTaskWithinDay allTasks taskID localIndex (localIndex - 1)
    else
      let prevDate := date - 1
      if prevDate < currentDate then allTasks
      else moveTaskToDay allTasks taskID date prevDate (-1)

/-- Model of `moveTaskDown`: within-day swap, or transfer to the next day
(no ceiling check). -/
def moveTaskDown (allTasks : List Task) (currentDate : Int)
    (date : Int) (taskID : String) : List Task :=
  let tasks := getTasksForDate allTasks date
  match findTask taskID tasks with
  | none => allTasks
  | some (localIndex, t) =>
    if t.isCalendar then allTasks
    else if localIndex < tasks.length - 1 then
      moveTaskWithinDay allTasks taskID localIndex (localIndex + 1)
    else
      moveTaskToDay allTasks taskID date (date + 1) 0

/-- Model of `strings.Contains(text, query)`: `substrContains query text` is
true when `query` occurs contiguously in `text`. -/
def substrContains (query : List Char) : List Char → Bool
  | [] => query.isPrefixOf []
  | c :: rest => query.isPrefixOf (c :: rest) || substrContains query rest

/-- Model of `calculateScore` (internal/search/fuzzy.go): substring matches get
`1000` or `500 + (100 - len(text))`; otherwise an ordered-subsequence
walk with bonuses, a length penalty and a floor at `0`.  The walk is
modelled as a fold over the indexed characters, mirroring
`for i, char := range textChars` with its direct `textChars[i-1]` and
`queryChars[queryIdx-1]` accesses. -/
def calculateScore (query text0 : List Char) : Int :=
  let text := text0.map Char.toLower
  if substrContains query text then
    if text == query then 1000 else 500 + (100 - (text.length : Int))
  else
    let r := text.enum.foldl
      (fun (st : Int × Nat) (ic : Nat × Char) =>
        match query.get? st.2 with
        | some qc =>
          if ic.2 = qc then
            let s1 := st.1 + 10
            let s2 := if 0 < st.2 ∧ 0 < ic.1 ∧
                         text.get? (ic.1 - 1) = query.get? (st.2 - 1)
                      then s1 + 5 else s1
            let s3 := if ic.1 = 0 ∨ text.get? (ic.1 - 1) = some ' '
                      then s2 + 15 else s2
            (s3, st.2 + 1)
          else st
        | none => st)
      (0, 0)
    if r.2 < query.length then 0
    else max 0 (r.1 - ((text.length : Int) - (query.length : Int)).natAbs)

/-- Model of `highlightMatch`: returns the text unchanged. -/
def highlightMatch (query text : List Char) : List Char := text

/-- Model of `search.Result` (the Go field `Match` is `matchStr` here). -/
structure SearchResult where
  task : Task
  score : Int
  matchStr : List Char
deriving DecidableEq

/-- The `less` closure of `Search`'s `sort.Slice`: score descending,
ties broken by date descending. -/
def searchLess (a b : SearchResult) : Bool :=
  if a.score == b.score then decide (b.task.date < a.task.date)
  else decide (b.score < a.score)

/-- The non-strict order induced by `searchLess`. -/
def searchLe (a b : SearchResult) : Prop := searchLess b a = false

instance : DecidableRel searchLe := fun a b =>
  inferInstanceAs (Decidable (searchLess b a = false))

/-- Model of `Engine.Search`: score every task, boost active/future tasks,
keep positive scores, sort.  `today` stands for
`time.Now().Truncate(24 * time.Hour)` at the moment of the call. -/
def Search (query0 : List Char) (tasks : List Task) (today : Int) :
    List SearchResult :=
  if query0 == [] then []
  else
    let query := query0.map Char.toLower
    let results := tasks.filterMap fun task =>
      let score := calculateScore query task.text
      if 0 < score then
        let score := if !task.done && !decide (task.date < today)
                     then score + 100 else score
        some { task := task, score := score
               matchStr := highlightMatch query task.text }
      else none
    List.insertionSort searchLe results

/-! ### Day Compositor ordering (claim C3) -/

/-- C3: for every stored collection, day's calendar events and target
date, the composited sequence puts calendar-event tasks first, calendar
events ascending by start time, and non-calendar tasks descending by
priority. -/
theorem compositor_ordering (allTasks calendarTasks : List Task)
    (currentDate : Int) :
    (updateTasksForCurrentDate allTasks calendarTasks currentDate).Pairwise
      (fun a b =>
        (b.isCalendar = true → a.isCalendar = true) ∧
        (a.isCalendar = true → b.isCalendar = true → a.startTime ≤ b.startTime) ∧
        (a.isCalendar = false → b.isCalendar = false → b.priority ≤ a.priority)) :=
  List.Pairwise.imp (fun h => taskLe_spec h)
    (sortTasks_sorted (calendarTasks ++
      allTasks.filter fun t => trunc t.date == currentDate))

/-! ### Fuzzy search: substring scores (claim C6) -/

/-- C6: when the lowercased text contains the lowercased query as a
contiguous substring, the score is exactly 1000 on full equality and
`500 + (100 - len(text))` otherwise; no length-difference penalty. -/
theorem substring_score (q t : List Char)
    (h : substrContains (q.map Char.toLower) (t.map Char.toLower) = true) :
    calculateScore (q.map Char.toLower) t =
      if t.map Char.toLower = q.map Char.toLower then 1000
      else 500 + (100 - (t.length : Int)) := by
  simp only [calculateScore, h, if_true, List.length_map, beq_iff_eq]

/-- Witness for `substring_score`. -/
theorem substring_score_witness :
    calculateScore ((['a', 'b']).map Char.toLower) ['x', 'A', 'B'] = 597 := by
  rw [substring_score ['a', 'b'] ['x', 'A', 'B'] (by decide)]
  decide

/-! ### Fuzzy search: empty query (claim C7) -/

/-- C7 counterexample: a whitespace-only query is not trimmed; on a
task whose text contains a space it returns that task (here: all
tasks), not the empty list. -/
theorem whitespace_query_cex :
    Search [' ']
      [{ id := "t", text := ['a', ' ', 'b'], done := false, date := 0,
         isCalendar := false, startTime := 0, priority := 0,
         createdAt := 0, level := 0 }] 0 ≠ [] := by
  decide

/-- C7 amended: only the exactly-empty query short-circuits to an empty
result list; whitespace-only queries are not trimmed and are matched
like any other text. -/
theorem empty_query_empty_results (tasks : List Task) (today : Int) :
    Search [] tasks today = [] := rfl

/-! ### Fuzzy search: active/future boost (claim C8) -/

/-- C8: for a non-empty query, the search output is a permutation of
the positively-scored tasks, each task's final score being its base
score plus a flat 100 exactly when the task is not done and not dated
before today; the boost is applied before sorting. -/
theorem search_boost (q : List Char) (tasks : List Task) (today : Int)
    (h : q ≠ []) :
    (Search q tasks today).Perm
      (tasks.filterMap fun task =>
        let base := calculateScore (q.map Char.toLower) task.text
        if 0 < base then
          some { task := task
                 score := base +
                   (if task.done = false ∧ ¬ task.date < today then 100 else 0)
                 matchStr := task.text }
        else none) := by
  unfold Search
  rw [if_neg (by simpa using h)]
  refine (List.perm_insertionSort searchLe _).trans ?_
  rw [List.filterMap_congr ?_]
  intro task _
  simp only [highlightMatch]
  split
  · congr 1
    simp only [SearchResult.mk.injEq]
    refine ⟨trivial, ?_, trivial⟩
    split <;> split <;> simp_all <;> omega
  · rfl

/-- Witness for `search_boost`. -/
theorem search_boost_witness :
    (Search ['a']
      [{ id := "t", text := ['a'], done := false, date := 5,
         isCalendar := false, startTime := 0, priority := 0,
         createdAt := 0, level := 0 }] 0).Perm
      ([{ id := "t", text := ['a'], done := false, date := 5,
          isCalendar := false, startTime := 0, priority := 0,
          createdAt := 0, level := 0 }].filterMap fun task =>
        let base := calculateScore (['a'].map Char.toLower) task.text
        if 0 < base then
          some { task := task
                 score := base +
                   (if task.done = false ∧ ¬ task.date < (0 : Int) then 100 else 0)
                 matchStr := task.text }
        else none) :=
  search_boost ['a'] _ 0 (by decide)

/-! ### Fuzzy search: subsequence scores (claim C5) -/

/-- The subsequence walk exactly as the claim words it (spec side, for
comparison with the source): `+10` per match, `+5` only when the match
is consecutive with the previous matched character's *position*, `+15`
at a word boundary; `0` unless all query characters are found; then
the length penalty and the floor at `0`. -/
def claimSubseqScore (query text0 : List Char) : Int :=
  let text := text0.map Char.toLower
  let r := text.enum.foldl
    (fun (st : Int × Nat × Option Nat) (ic : Nat × Char) =>
      match query.get? st.2.1 with
      | some qc =>
        if ic.2 = qc then
          let s1 := st.1 + 10
          let s2 := if 0 < ic.1 ∧ st.2.2 = some (ic.1 - 1) then s1 + 5 else s1
          let s3 := if ic.1 = 0 ∨ text.get? (ic.1 - 1) = some ' '
                    then s2 + 15 else s2
          (s3, st.2.1 + 1, some ic.1)
        else st
      | none => st)
    (0, 0, none)
  if r.2.1 < query.length then 0
  else max 0 (r.1 - ((text.length : Int) - (query.length : Int)).natAbs)

/-- The same claim-shaped walk with the consecutiveness bonus as the
source implements it: `+5` when the text character immediately before
the current position equals the previously matched query character
(`textChars[i-1] == queryChars[queryIdx-1]`). -/
def amendedSubseqScore (query text0 : List Char) : Int :=
  let text := text0.map Char.toLower
  let r := text.enum.foldl
    (fun (st : Int × Nat × Option Nat) (ic : Nat × Char) =>
      match query.get? st.2.1 with
      | some qc =>
        if ic.2 = qc then
          let s1 := st.1 + 10
          let s2 := if 0 < st.2.1 ∧ 0 < ic.1 ∧
                       text.get? (ic.1 - 1) = query.get? (st.2.1 - 1)
                    then s1 + 5 else s1
          let s3 := if ic.1 = 0 ∨ text.get? (ic.1 - 1) = some ' '
                    then s2 + 15 else s2
          (s3, st.2.1 + 1, some ic.1)
        else st
      | none => st)
    (0, 0, none)
  if r.2.1 < query.length then 0
  else max 0 (r.1 - ((text.length : Int) - (query.length : Int)).natAbs)

/-- A fold invariant under a state projection. -/
theorem foldl_proj {α β γ : Type} (p : β → γ) (f : γ → α → γ)
    (g : β → α → β) (hc : ∀ s x, p (g s x) = f (p s) x) :
    ∀ (l : List α) (b : β), p (l.foldl g b) = l.foldl f (p b)
  | [], _ => rfl
  | x :: xs, b => by
    simp only [List.foldl_cons, foldl_proj p f g hc xs, hc]

/-- C5 counterexample: for query `"aab"` and text `"aacab"` (no
substring match) the source awards the consecutiveness bonus to the
final `b` because `text[3] = 'a'` equals `query[1]`, although the match
positions 1 and 4 are not consecutive: the code scores 53 where the
claim's walk scores 48. -/
theorem subseq_score_cex :
    substrContains ['a', 'a', 'b']
      (['a', 'a', 'c', 'a', 'b'].map Char.toLower) = false ∧
    calculateScore ['a', 'a', 'b'] ['a', 'a', 'c', 'a', 'b'] = 53 ∧
    claimSubseqScore ['a', 'a', 'b'] ['a', 'a', 'c', 'a', 'b'] = 48 ∧
    (53 : Int) ≠ 48 := by
  decide

/-- C5 amended: outside the substring case, the score is the claim's
walk with the consecutiveness bonus condition replaced by the
preceding-character test `textChars[i-1] == queryChars[queryIdx-1]`. -/
theorem subseq_score_amended (q t : List Char)
    (h : substrContains q (t.map Char.toLower) = false) :
    calculateScore q t = amendedSubseqScore q t := by
  unfold calculateScore amendedSubseqScore
  simp only [h, Bool.false_eq_true, if_false]
  have hp := foldl_proj (fun b : Int × Nat × Option Nat => (b.1, b.2.1))
    (fun (st : Int × Nat) (ic : Nat × Char) =>
      match q.get? st.2 with
      | some qc =>
        if ic.2 = qc then
          let s1 := st.1 + 10
          let s2 := if 0 < st.2 ∧ 0 < ic.1 ∧
                       (t.map Char.toLower).get? (ic.1 - 1) = q.get? (st.2 - 1)
                    then s1 + 5 else s1
          let s3 := if ic.1 = 0 ∨ (t.map Char.toLower).get? (ic.1 - 1) = some ' '
                    then s2 + 15 else s2
          (s3, st.2 + 1)
        else st
      | none => st)
    (fun (st : Int × Nat × Option Nat) (ic : Nat × Char) =>
      match q.get? st.2.1 with
      | some qc =>
        if ic.2 = qc then
          let s1 := st.1 + 10
          let s2 := if 0 < st.2.1 ∧ 0 < ic.1 ∧
                       (t.map Char.toLower).get? (ic.1 - 1) = q.get? (st.2.1 - 1)
                    then s1 + 5 else s1
          let s3 := if ic.1 = 0 ∨ (t.map Char.toLower).get? (ic.1 - 1) = some ' '
                    then s2 + 15 else s2
          (s3, st.2.1 + 1, some ic.1)
        else st
      | none => st)
    (fun s x => by
      rcases s with ⟨sc, qi, lp⟩
      rcases x with ⟨i, c⟩
      dsimp only
      rcases hq : q.get? qi with _ | qc
      · rfl
      · dsimp only
        split <;> rfl)
    ((t.map Char.toLower).enum) (0, 0, none)
  rw [show ((0 : Int), (0 : Nat)) = ((fun b : Int × Nat × Option Nat =>
    (b.1, b.2.1)) ((0 : Int), (0 : Nat), (none : Option Nat))) from rfl]
  rw [← hp]

/-- Witness for `subseq_score_amended`. -/
theorem subseq_score_amended_witness :
    calculateScore ['a', 'a', 'b'] ['a', 'a', 'c', 'a', 'b'] =
      amendedSubseqScore ['a', 'a', 'b'] ['a', 'a', 'c', 'a', 'b'] :=
  subseq_score_amended ['a', 'a', 'b'] ['a', 'a', 'c', 'a', 'b'] (by decide)

/-! ### Machinery about `findTask`, `updateFirst` and the priority folds -/

theorem findTask_mem {s : String} :
    ∀ {l : List Task} {i : Nat} {t : Task},
      findTask s l = some (i, t) → t ∈ l ∧ t.id = s := by
  intro l
  induction l with
  | nil => intro i t h; simp [findTask] at h
  | cons a as ih =>
    intro i t h
    simp only [findTask] at h
    by_cases ha : (a.id == s) = true
    · rw [if_pos ha] at h
      cases h
      exact ⟨List.mem_cons_self a as, by simpa using ha⟩
    · rw [if_neg ha, Option.map_eq_some'] at h
      obtain ⟨p, hp, he⟩ := h
      cases he
      obtain ⟨hm, hid⟩ := ih hp
      exact ⟨List.mem_cons_of_mem a hm, hid⟩

theorem findTask_eq_none_of {s : String} :
    ∀ {l : List Task}, (∀ t ∈ l, t.id ≠ s) → findTask s l = none := by
  intro l
  induction l with
  | nil => intro _; rfl
  | cons a as ih =>
    intro h
    have ha : (a.id == s) = false := by
      simpa using h a (List.mem_cons_self a as)
    simp only [findTask, ha, Bool.false_eq_true, if_false,
      ih fun t ht => h t (List.mem_cons_of_mem a ht), Option.map_none']

theorem findTask_get {s : String} :
    ∀ {l : List Task} {j : Nat} {t : Task},
      findTask s l = some (j, t) →
      ∃ hj : j < l.length, l.get ⟨j, hj⟩ = t := by
  intro l
  induction l with
  | nil => intro j t h; simp [findTask] at h
  | cons a as ih =>
    intro j t h
    simp only [findTask] at h
    by_cases ha : (a.id == s) = true
    · rw [if_pos ha] at h
      cases h
      exact ⟨Nat.succ_pos _, rfl⟩
    · rw [if_neg ha, Option.map_eq_some'] at h
      obtain ⟨p, hp, he⟩ := h
      cases he
      obtain ⟨hj, hg⟩ := ih hp
      exact ⟨Nat.succ_lt_succ hj, hg⟩

theorem findTask_of_exists {s : String} :
    ∀ {l : List Task}, (∃ t ∈ l, t.id = s) →
      ∃ j t, findTask s l = some (j, t) := by
  intro l
  induction l with
  | nil => rintro ⟨t, ht, _⟩; cases ht
  | cons a as ih =>
    rintro ⟨t, ht, hid⟩
    by_cases ha : (a.id == s) = true
    · exact ⟨0, a, by simp [findTask, ha]⟩
    · rcases List.mem_cons.mp ht with rfl | hmem
      · simp [hid] at ha
      · obtain ⟨j, u, hu⟩ := ih ⟨t, hmem, hid⟩
        exact ⟨j + 1, u, by simp [findTask, ha, hu]⟩

theorem updateFirst_eq_set_of_findTask {s : String} {f : Task → Task} :
    ∀ {l : List Task} {j : Nat} {t : Task},
      findTask s l = some (j, t) → updateFirst s f l = l.set j (f t) := by
  intro l
  induction l with
  | nil => intro j t h; simp [findTask] at h
  | cons a as ih =>
    intro j t h
    simp only [findTask] at h
    by_cases ha : (a.id == s) = true
    · rw [if_pos ha] at h
      cases h
      simp [updateFirst, ha]
    · rw [if_neg ha, Option.map_eq_some'] at h
      obtain ⟨p, hp, he⟩ := h
      cases he
      simp [updateFirst, ha, ih hp]

theorem updateFirst_forall₂ {s : String} {f : Task → Task}
    (R : Task → Task → Prop) (hrefl : ∀ t, R t t) (hf : ∀ t, R t (f t)) :
    ∀ l : List Task, List.Forall₂ R l (updateFirst s f l) := by
  intro l
  induction l with
  | nil => exact List.Forall₂.nil
  | cons a as ih =>
    by_cases ha : (a.id == s) = true
    · simp only [updateFirst, ha, if_true]
      exact List.Forall₂.cons (hf a) (List.forall₂_same.mpr fun t _ => hrefl t)
    · simp only [updateFirst, ha, Bool.false_eq_true, if_false]
      exact List.Forall₂.cons (hrefl a) ih

theorem updateFirst_comp {s : String} {f g : Task → Task}
    (hg : ∀ u, (g u).id = u.id) :
    ∀ l : List Task,
      updateFirst s f (updateFirst s g l) = updateFirst s (fun u => f (g u)) l := by
  intro l
  induction l with
  | nil => rfl
  | cons a as ih =>
    by_cases ha : (a.id == s) = true
    · have : ((g a).id == s) = true := by rw [hg]; exact ha
      simp [updateFirst, ha, this]
    · simp [updateFirst, ha, ih]

theorem mem_getTasksForDate {allTasks : List Task} {d : Int} {u : Task} :
    u ∈ getTasksForDate allTasks d ↔ u ∈ allTasks ∧ trunc u.date = trunc d := by
  unfold getTasksForDate sortTasks
  rw [List.mem_insertionSort, List.mem_filter]
  simp

theorem unique_id_eq {l : List Task}
    (hU : l.Pairwise fun a b => a.id ≠ b.id) {t u : Task}
    (ht : t ∈ l) (hu : u ∈ l) (hid : t.id = u.id) : t = u := by
  induction l with
  | nil => cases ht
  | cons a as ih =>
    rcases List.pairwise_cons.mp hU with ⟨hhead, htail⟩
    rcases List.mem_cons.mp ht with rfl | ht₁
    · rcases List.mem_cons.mp hu with rfl | hu₁
      · rfl
      · exact absurd hid (hhead u hu₁)
    · rcases List.mem_cons.mp hu with rfl | hu₁
      · exact absurd hid.symm (hhead t ht₁)
      · exact ih htail ht₁ hu₁

theorem foldl_max_filterMap (Q : Task → Bool) (v : Task → Int) :
    ∀ (l : List Task) (acc : Int),
      l.foldl (fun acc t => if Q t && decide (acc < v t) then v t else acc) acc
        = (l.filterMap fun t => if Q t then some (v t) else none).foldl max acc := by
  intro l
  induction l with
  | nil => intro acc; rfl
  | cons a as ih =>
    intro acc
    by_cases hq : Q a = true
    · simp only [List.foldl_cons, List.filterMap_cons, hq, if_true,
        Bool.true_and, List.foldl_cons]
      rw [ih]
      congr 1
      by_cases hlt : acc < v a <;> simp [hlt] <;> omega
    · simp only [List.foldl_cons, List.filterMap_cons, hq, Bool.false_and,
        Bool.false_eq_true, if_false]
      exact ih acc

theorem foldl_min_filterMap (Q : Task → Bool) (v : Task → Int) :
    ∀ (l : List Task) (acc : Int),
      l.foldl (fun acc t => if Q t && decide (v t < acc) then v t else acc) acc
        = (l.filterMap fun t => if Q t then some (v t) else none).foldl min acc := by
  intro l
  induction l with
  | nil => intro acc; rfl
  | cons a as ih =>
    intro acc
    by_cases hq : Q a = true
    · simp only [List.foldl_cons, List.filterMap_cons, hq, if_true,
        Bool.true_and, List.foldl_cons]
      rw [ih]
      congr 1
      by_cases hlt : v a < acc <;> simp [hlt] <;> omega
    · simp only [List.foldl_cons, List.filterMap_cons, hq, Bool.false_and,
        Bool.false_eq_true, if_false]
      exact ih acc

theorem foldl_max_comm :
    ∀ (A : List Int) (a b : Int), A.foldl max (max a b) = max (A.foldl max a) b := by
  intro A
  induction A with
  | nil => intro a b; rfl
  | cons x xs ih =>
    intro a b
    simp only [List.foldl_cons]
    rw [show max (max a b) x = max (max a x) b by omega, ih]

theorem init_le_foldl_max :
    ∀ (A : List Int) (a : Int), a ≤ A.foldl max a := by
  intro A
  induction A with
  | nil => intro a; exact le_refl a
  | cons x xs ih =>
    intro a
    simp only [List.foldl_cons]
    exact le_trans (le_max_left a x) (ih (max a x))

theorem mem_le_foldl_max :
    ∀ (A : List Int) (a x : Int), x ∈ A → x ≤ A.foldl max a := by
  intro A
  induction A with
  | nil => intro a x hx; cases hx
  | cons y ys ih =>
    intro a x hx
    rcases List.mem_cons.mp hx with rfl | hx₁
    · simp only [List.foldl_cons]
      exact le_trans (le_max_right a x) (init_le_foldl_max ys (max a x))
    · exact ih (max a y) x hx₁

/-! ### Cross-day moves: within-day frame effect (claim C9) -/

/-- C9: a within-day move (the task is not at its day's boundary in the
move direction) changes exactly one entry of the stored collection —
the first task carrying the moved id — and only its priority, by
exactly `+1` for a move up and `-1` for a move down. -/
theorem within_day_move_frame (allTasks : List Task) (cd d : Int)
    (s : String) (i : Nat) (td : Task) (j : Nat) (t : Task)
    (hfind : findTask s (getTasksForDate allTasks d) = some (i, td))
    (hcal : td.isCalendar = false)
    (hmem : findTask s allTasks = some (j, t)) :
    (0 < i →
      moveTaskUp allTasks cd d s =
        allTasks.set j { t with priority := t.priority + 1 }) ∧
    (i < (getTasksForDate allTasks d).length - 1 →
      moveTaskDown allTasks cd d s =
        allTasks.set j { t with priority := t.priority - 1 }) := by
  constructor
  · intro hi
    simp only [moveTaskUp, hfind, hcal, Bool.false_eq_true, if_false, hi,
      if_true, moveTaskWithinDay]
    rw [updateFirst_eq_set_of_findTask hmem, if_pos (by omega : i - 1 < i)]
  · intro hi
    simp only [moveTaskDown, hfind, hcal, Bool.false_eq_true, if_false, hi,
      if_true, moveTaskWithinDay]
    rw [updateFirst_eq_set_of_findTask hmem,
      if_neg (by omega : ¬ i + 1 < i)]

/-- Witness for `within_day_move_frame`: a three-task day, moving the
middle task up and down. -/
theorem within_day_move_frame_witness :
    (moveTaskUp
        [{ id := "a", text := [], done := false, date := 0, isCalendar := false,
           startTime := 0, priority := 5, createdAt := 0, level := 0 },
         { id := "b", text := [], done := false, date := 0, isCalendar := false,
           startTime := 0, priority := 3, createdAt := 0, level := 0 },
         { id := "c", text := [], done := false, date := 0, isCalendar := false,
           startTime := 0, priority := 1, createdAt := 0, level := 0 }] 0 0 "b" =
      [{ id := "a", text := [], done := false, date := 0, isCalendar := false,
         startTime := 0, priority := 5, createdAt := 0, level := 0 },
       { id := "b", text := [], done := false, date := 0, isCalendar := false,
         startTime := 0, priority := 3, createdAt := 0, level := 0 },
       { id := "c", text := [], done := false, date := 0, isCalendar := false,
         startTime := 0, priority := 1, createdAt := 0, level := 0 }].set 1
        { id := "b", text := [], done := false, date := 0, isCalendar := false,
          startTime := 0, priority := 3 + 1, createdAt := 0, level := 0 }) ∧
    (moveTaskDown
        [{ id := "a", text := [], done := false, date := 0, isCalendar := false,
           startTime := 0, priority := 5, createdAt := 0, level := 0 },
         { id := "b", text := [], done := false, date := 0, isCalendar := false,
           startTime := 0, priority := 3, createdAt := 0, level := 0 },
         { id := "c", text := [], done := false, date := 0, isCalendar := false,
           startTime := 0, priority := 1, createdAt := 0, level := 0 }] 0 0 "b" =
      [{ id := "a", text := [], done := false, date := 0, isCalendar := false,
         startTime := 0, priority := 5, createdAt := 0, level := 0 },
       { id := "b", text := [], done := false, date := 0, isCalendar := false,
         startTime := 0, priority := 3, createdAt := 0, level := 0 },
       { id := "c", text := [], done := false, date := 0, isCalendar := false,
         startTime := 0, priority := 1, createdAt := 0, level := 0 }].set 1
        { id := "b", text := [], done := false, date := 0, isCalendar := false,
          startTime := 0, priority := 3 - 1, createdAt := 0, level := 0 }) := by
  have h := within_day_move_frame
    [{ id := "a", text := [], done := false, date := 0, isCalendar := false,
       startTime := 0, priority := 5, createdAt := 0, level := 0 },
     { id := "b", text := [], done := false, date := 0, isCalendar := false,
       startTime := 0, priority := 3, createdAt := 0, level := 0 },
     { id := "c", text := [], done := false, date := 0, isCalendar := false,
       startTime := 0, priority := 1, createdAt := 0, level := 0 }] 0 0 "b" 1
    { id := "b", text := [], done := false, date := 0, isCalendar := false,
      startTime := 0, priority := 3, createdAt := 0, level := 0 } 1
    { id := "b", text := [], done := false, date := 0, isCalendar := false,
      startTime := 0, priority := 3, createdAt := 0, level := 0 }
    (by decide) (by decide) (by decide)
  exact ⟨h.1 (by decide), h.2 (by decide)⟩

/-! ### Cross-day moves: unknown id is a silent no-op (claim C10) -/

/-- C10: when no task dated `d` carries id `s`, both `moveTaskUp` and
`moveTaskDown` leave the whole collection unchanged. -/
theorem move_unknown_id_noop (allTasks : List Task) (cd d : Int)
    (s : String) (h : ∀ t ∈ allTasks, trunc t.date = trunc d → t.id ≠ s) :
    moveTaskUp allTasks cd d s = allTasks ∧
    moveTaskDown allTasks cd d s = allTasks := by
  have hnone : findTask s (getTasksForDate allTasks d) = none := by
    apply findTask_eq_none_of
    intro t ht
    obtain ⟨hmem, hdate⟩ := mem_getTasksForDate.mp ht
    exact h t hmem hdate
  exact ⟨by simp only [moveTaskUp, hnone], by simp only [moveTaskDown, hnone]⟩

/-- Witness for `move_unknown_id_noop`. -/
theorem move_unknown_id_noop_witness :
    moveTaskUp
      [{ id := "a", text := [], done := false, date := 0, isCalendar := false,
         startTime := 0, priority := 5, createdAt := 0, level := 0 }] 0 0 "zz" =
      [{ id := "a", text := [], done := false, date := 0, isCalendar := false,
         startTime := 0, priority := 5, createdAt := 0, level := 0 }] ∧
    moveTaskDown
      [{ id := "a", text := [], done := false, date := 0, isCalendar := false,
         startTime := 0, priority := 5, createdAt := 0, level := 0 }] 0 0 "zz" =
      [{ id := "a", text := [], done := false, date := 0, isCalendar := false,
         startTime := 0, priority := 5, createdAt := 0, level := 0 }] :=
  move_unknown_id_noop _ 0 0 "zz" (by decide)

/-! ### Cross-day moves: the floor (claim C2) -/

/-- C2 counterexample: with `currentDate` as at start-up (wall-clock
today, here day 100), moving down the last task of past day 50 moves it
to day 51 — earlier than today.  The engine has no floor at all on
move-down, so a moved task's resulting date can be earlier than
today. -/
theorem move_floor_cex :
    moveTaskDown
      [{ id := "a", text := [], done := false, date := 50, isCalendar := false,
         startTime := 0, priority := 0, createdAt := 0, level := 0 }] 100 50 "a" =
      [{ id := "a", text := [], done := false, date := 51, isCalendar := false,
         startTime := 0, priority := 1, createdAt := 0, level := 0 }] ∧
    (51 : Int) < 100 := by
  decide

/-- C2 amended: the function `moveTaskUp` never assigns a date below the model's
`currentDate` field (initialised to wall-clock today): every task
either keeps its date or ends at a date `≥ currentDate`; and a move-up
of a day's first task whose previous day lies before `currentDate` is
rejected silently, leaving the whole collection unchanged.
(`moveTaskDown` has no floor, as the counterexample shows.) -/
theorem moveUp_floor (allTasks : List Task) (cd d : Int) (s : String) :
    List.Forall₂ (fun t u => u.date = t.date ∨ cd ≤ u.date) allTasks
      (moveTaskUp allTasks cd d s) ∧
    (∀ t : Task, findTask s (getTasksForDate allTasks d) = some (0, t) →
      t.isCalendar = false → d - 1 < cd →
      moveTaskUp allTasks cd d s = allTasks) := by
  have hrefl : List.Forall₂ (fun t u : Task => u.date = t.date ∨ cd ≤ u.date)
      allTasks allTasks :=
    List.forall₂_same.mpr fun t _ => Or.inl rfl
  constructor
  · cases hf : findTask s (getTasksForDate allTasks d) with
    | none => simpa only [moveTaskUp, hf] using hrefl
    | some p =>
      obtain ⟨i, t⟩ := p
      by_cases hcal : t.isCalendar = true
      · simpa only [moveTaskUp, hf, hcal, if_true] using hrefl
      · by_cases hi : 0 < i
        · simp only [moveTaskUp, hf, hcal, Bool.false_eq_true, if_false,
            hi, if_true, moveTaskWithinDay]
          apply updateFirst_forall₂
          · exact fun u => Or.inl rfl
          · intro u
            dsimp only
            split <;> exact Or.inl rfl
        · by_cases hprev : d - 1 < cd
          · simpa only [moveTaskUp, hf, hcal, Bool.false_eq_true, if_false,
              hi, hprev, if_true] using hrefl
          · simp only [moveTaskUp, hf, hcal, Bool.false_eq_true, if_false,
              hi, hprev, if_true, moveTaskToDay]
            rw [if_pos (by decide : ((-1 : Int) == -1) = true),
              updateFirst_comp (g := fun u => { u with date := d - 1 })
                fun u => rfl]
            apply updateFirst_forall₂
            · exact fun u => Or.inl rfl
            · exact fun u => Or.inr (by dsimp only; omega)
  · intro t hf hcal hlt
    simp only [moveTaskUp, hf, hcal, Bool.false_eq_true, if_false,
      lt_irrefl, hlt, if_true]

/-- Witness for `moveUp_floor`: day 5's only task, `currentDate` 10 —
the move up is rejected and the collection is untouched. -/
theorem moveUp_floor_witness :
    List.Forall₂ (fun t u : Task => u.date = t.date ∨ (10 : Int) ≤ u.date)
      [{ id := "a", text := [], done := false, date := 5, isCalendar := false,
         startTime := 0, priority := 0, createdAt := 0, level := 0 }]
      (moveTaskUp
        [{ id := "a", text := [], done := false, date := 5, isCalendar := false,
           startTime := 0, priority := 0, createdAt := 0, level := 0 }] 10 5 "a") ∧
    moveTaskUp
      [{ id := "a", text := [], done := false, date := 5, isCalendar := false,
         startTime := 0, priority := 0, createdAt := 0, level := 0 }] 10 5 "a" =
      [{ id := "a", text := [], done := false, date := 5, isCalendar := false,
         startTime := 0, priority := 0, createdAt := 0, level := 0 }] :=
  ⟨(moveUp_floor _ 10 5 "a").1,
   (moveUp_floor _ 10 5 "a").2
     { id := "a", text := [], done := false, date := 5, isCalendar := false,
       startTime := 0, priority := 0, createdAt := 0, level := 0 }
     (by decide) (by decide) (by decide)⟩

/-! ### Hierarchical insertion (claim C1) -/

/-- Definition of `endPriority` exactly as the claim words it (spec side, for
comparison with the source): the minimum priority among the selected
task `T` and its descendant block — the contiguous run of tasks
immediately after `T` in the day's priority order whose level is
strictly greater than `T`'s — and `T`'s own priority when the block is
empty. -/
def claimEndPriority (T : Task) (dayTasks : List Task) : Int :=
  (((dayTasks.dropWhile fun u => u ≠ T).drop 1).takeWhile
      fun u => T.level < u.level).foldl
    (fun acc u => min acc u.priority) T.priority

/-- C1 counterexample: a day holding only task `A` (level 0,
priority 10) with `A` selected.  The claim's `endPriority` is `A`'s own
priority 10, so the claim assigns the new task priority 9; the source
starts its scan at `selectedTask.Priority - 1` and assigns 8. -/
theorem insert_priority_cex :
    insertTaskAtPosition
      (some { itemType := "task",
              task := some { id := "A", text := [], done := false, date := 0,
                             isCalendar := false, startTime := 0, priority := 10,
                             createdAt := 0, level := 0 },
              date := 0 })
      [{ id := "A", text := [], done := false, date := 0, isCalendar := false,
         startTime := 0, priority := 10, createdAt := 0, level := 0 }]
      { id := "N", text := [], done := false, date := 0, isCalendar := false,
        startTime := 0, priority := 0, createdAt := 0, level := 0 } 0 =
      [{ id := "A", text := [], done := false, date := 0, isCalendar := false,
         startTime := 0, priority := 10, createdAt := 0, level := 0 },
       { id := "N", text := [], done := false, date := 0, isCalendar := false,
         startTime := 0, priority := 8, createdAt := 0, level := 0 }] ∧
    claimEndPriority
      { id := "A", text := [], done := false, date := 0, isCalendar := false,
        startTime := 0, priority := 10, createdAt := 0, level := 0 }
      (getTasksForDate
        [{ id := "A", text := [], done := false, date := 0, isCalendar := false,
           startTime := 0, priority := 10, createdAt := 0, level := 0 }] 0) = 10 ∧
    (8 : Int) ≠ 10 - 1 := by
  decide

/-- C1 amended: with an existing task `T` selected on a non-empty day,
the new task is appended with priority `endPriority - 1`, where
`endPriority` is the minimum of `T.priority - 1` and the priorities of
*all* the day's non-calendar tasks with priority below `T`'s and level
above `T`'s (not restricted to `T`'s contiguous descendant block). -/
theorem insert_after_selected (allTasks : List Task) (newTask : Task)
    (targetDate : Int) (item : ListItem) (T : Task)
    (htype : item.itemType = "task") (htask : item.task = some T)
    (hne : getTasksForDate allTasks targetDate ≠ []) :
    insertTaskAtPosition (some item) allTasks newTask targetDate =
      allTasks ++ [{ newTask with priority :=
        ((getTasksForDate allTasks targetDate).filterMap fun u =>
          if !u.isCalendar && decide (u.priority < T.priority) &&
             decide (T.level < u.level)
          then some u.priority else none).foldl min (T.priority - 1) - 1 }] := by
  have hempty : (getTasksForDate allTasks targetDate).isEmpty = false := by
    cases h : getTasksForDate allTasks targetDate with
    | nil => exact absurd h hne
    | cons a l => rfl
  have htype2 : (item.itemType == "add_button") = false := by
    rw [htype]; decide
  have htype3 : (item.itemType == "task") = true := by
    rw [htype]; decide
  simp only [insertTaskAtPosition, hempty, Bool.false_eq_true, if_false,
    htype2, htype3, if_true, htask]
  rw [foldl_min_filterMap
    (fun u => !u.isCalendar && decide (u.priority < T.priority) &&
      decide (T.level < u.level)) (fun u => u.priority)]

/-- Witness for `insert_after_selected`: the claim's own example — task
`A` (level 0, priority 10) with descendant `B` (level 1, priority 9);
inserting with `A` selected appends the new task with priority 8, i.e.
after the whole block and strictly below `B`'s 9. -/
theorem insert_after_selected_witness :
    insertTaskAtPosition
      (some { itemType := "task",
              task := some { id := "A", text := [], done := false, date := 0,
                             isCalendar := false, startTime := 0, priority := 10,
                             createdAt := 0, level := 0 },
              date := 0 })
      [{ id := "A", text := [], done := false, date := 0, isCalendar := false,
         startTime := 0, priority := 10, createdAt := 0, level := 0 },
       { id := "B", text := [], done := false, date := 0, isCalendar := false,
         startTime := 0, priority := 9, createdAt := 0, level := 1 }]
      { id := "N", text := [], done := false, date := 0, isCalendar := false,
        startTime := 0, priority := 0, createdAt := 0, level := 0 } 0 =
      [{ id := "A", text := [], done := false, date := 0, isCalendar := false,
         startTime := 0, priority := 10, createdAt := 0, level := 0 },
       { id := "B", text := [], done := false, date := 0, isCalendar := false,
         startTime := 0, priority := 9, createdAt := 0, level := 1 },
       { id := "N", text := [], done := false, date := 0, isCalendar := false,
         startTime := 0, priority := 8, createdAt := 0, level := 0 }] ∧
    (8 : Int) < 9 := by
  constructor
  · rw [insert_after_selected _ _ _ _
      { id := "A", text := [], done := false, date := 0, isCalendar := false,
        startTime := 0, priority := 10, createdAt := 0, level := 0 }
      rfl rfl (by decide)]
    decide
  · decide

theorem findTask_set {s : String} :
    ∀ {l : List Task} {j : Nat} {t : Task},
      findTask s l = some (j, t) → ∀ x : Task, x.id = s →
      findTask s (l.set j x) = some (j, x) := by
  intro l
  induction l with
  | nil => intro j t h; simp [findTask] at h
  | cons a as ih =>
    intro j t h x hx
    simp only [findTask] at h
    by_cases ha : (a.id == s) = true
    · rw [if_pos ha] at h
      cases h
      simp [findTask, hx]
    · rw [if_neg ha, Option.map_eq_some'] at h
      obtain ⟨p, hp, he⟩ := h
      cases he
      simp [findTask, ha, ih hp x hx]

/-! ### Cross-day moves: move-down across the day boundary (claim C4) -/

/-- C4 counterexample: day 5 holds one task of priority 10; day 6 holds
one task of priority 3.  The claim predicts the moved task lands on
day 6 with priority `3 + 1 = 4`; the source seeds its maximum at 0 and
scans the collection *after* re-dating the moved task — including the
moved task itself — so it assigns `10 + 1 = 11`. -/
theorem moveDown_priority_cex :
    moveTaskDown
      [{ id := "a", text := [], done := false, date := 5, isCalendar := false,
         startTime := 0, priority := 10, createdAt := 0, level := 0 },
       { id := "b", text := [], done := false, date := 6, isCalendar := false,
         startTime := 0, priority := 3, createdAt := 0, level := 0 }] 0 5 "a" =
      [{ id := "a", text := [], done := false, date := 6, isCalendar := false,
         startTime := 0, priority := 11, createdAt := 0, level := 0 },
       { id := "b", text := [], done := false, date := 6, isCalendar := false,
         startTime := 0, priority := 3, createdAt := 0, level := 0 }] ∧
    (11 : Int) ≠ 3 + 1 := by
  decide

/-- C4 amended: moving the last task of day `D` down (allowed for every
`D`, with no ceiling check) re-dates it to `D + 1` and assigns priority
`1 + max(0, the moved task's own priority, the priorities of D+1's
existing non-calendar tasks)`; in particular the moved task still sorts
strictly before every existing non-calendar task of `D + 1`. -/
theorem moveDown_last_prepend (allTasks : List Task) (cd d : Int)
    (s : String) (i : Nat) (t : Task)
    (hU : allTasks.Pairwise fun a b => a.id ≠ b.id)
    (hfind : findTask s (getTasksForDate allTasks d) = some (i, t))
    (hcal : t.isCalendar = false)
    (hlast : ¬ i < (getTasksForDate allTasks d).length - 1) :
    ∃ (j : Nat) (hj : j < allTasks.length) (v : Int),
      allTasks.get ⟨j, hj⟩ = t ∧
      moveTaskDown allTasks cd d s =
        allTasks.set j { t with date := d + 1, priority := v } ∧
      v = 1 + (allTasks.filterMap fun u =>
          if u.id ≠ s ∧ trunc u.date = trunc (d + 1) ∧ u.isCalendar = false
          then some u.priority else none).foldl max (max 0 t.priority) ∧
      ∀ u ∈ allTasks, u.id ≠ s → trunc u.date = trunc (d + 1) →
        u.isCalendar = false → u.priority < v := by
  obtain ⟨htday, htid⟩ := findTask_mem hfind
  obtain ⟨htall, htdate⟩ := mem_getTasksForDate.mp htday
  obtain ⟨j, t0, hft⟩ := findTask_of_exists ⟨t, htall, htid⟩
  obtain ⟨ht0all, ht0id⟩ := findTask_mem hft
  have ht0 : t = t0 :=
    (unique_id_eq hU ht0all htall (by rw [ht0id, htid])).symm
  subst ht0
  obtain ⟨hj, hget⟩ := findTask_get hft
  -- the collection split around the first task carrying id `s`
  have hsplit : allTasks =
      allTasks.take j ++ t :: allTasks.drop (j + 1) := by
    conv_lhs => rw [← List.take_append_drop j allTasks]
    rw [List.drop_eq_getElem_cons hj, ← List.get_eq_getElem allTasks ⟨j, hj⟩,
      hget]
  have hts1 : updateFirst s (fun u => { u with date := d + 1 }) allTasks
      = allTasks.set j { t with date := d + 1 } :=
    updateFirst_eq_set_of_findTask hft
  have hsetsplit : allTasks.set j ({ t with date := d + 1 }) =
      allTasks.take j ++ { t with date := d + 1 } :: allTasks.drop (j + 1) := by
    rw [List.set_eq_take_append_cons_drop, if_pos hj]
  -- id disjointness of the two fragments
  have hUsplit : (allTasks.take j ++ t :: allTasks.drop (j + 1)).Pairwise
      fun a b => a.id ≠ b.id := hsplit ▸ hU
  obtain ⟨hUA, hUTB, hUcross⟩ := List.pairwise_append.mp hUsplit
  have hAid : ∀ u ∈ allTasks.take j, u.id ≠ s := by
    intro u hu he
    exact hUcross u hu t (List.mem_cons_self _ _) (by rw [he, htid])
  have hBid : ∀ u ∈ allTasks.drop (j + 1), u.id ≠ s := by
    intro u hu he
    exact (List.pairwise_cons.mp hUTB).1 u hu (by rw [he, htid])
  -- pointwise agreement of the source's scan filter with the
  -- id-excluding filter, away from the moved task
  have hcong : ∀ u : Task, u.id ≠ s →
      (if trunc u.date == trunc (d + 1) && !u.isCalendar
       then some u.priority else none) =
      (if u.id ≠ s ∧ trunc u.date = trunc (d + 1) ∧ u.isCalendar = false
       then some u.priority else none) := by
    intro u hu
    by_cases h1 : trunc u.date = trunc (d + 1) <;>
      cases h2 : u.isCalendar <;> simp [h1, h2, hu]
  -- the maximum scan over the re-dated collection
  have hM : ∀ acc : Int,
      (allTasks.set j ({ t with date := d + 1 })).foldl
        (fun acc u =>
          if trunc u.date == trunc (d + 1) && !u.isCalendar &&
             decide (acc < u.priority)
          then u.priority else acc) acc
      = (allTasks.filterMap fun u =>
          if u.id ≠ s ∧ trunc u.date = trunc (d + 1) ∧ u.isCalendar = false
          then some u.priority else none).foldl max (max acc t.priority) := by
    intro acc
    rw [foldl_max_filterMap
      (fun u => trunc u.date == trunc (d + 1) && !u.isCalendar)
      (fun u => u.priority), hsetsplit]
    conv_rhs => rw [hsplit]
    rw [List.filterMap_append, List.filterMap_append, List.filterMap_cons,
      List.filterMap_cons]
    have hxq : (if trunc ({ t with date := d + 1 } : Task).date ==
        trunc (d + 1) && !({ t with date := d + 1 } : Task).isCalendar
        then some ({ t with date := d + 1 } : Task).priority else none)
        = some t.priority := by
      simp [trunc, hcal]
    have htq : (if t.id ≠ s ∧ trunc t.date = trunc (d + 1) ∧
        t.isCalendar = false then some t.priority else none) = none := by
      simp [htid]
    rw [hxq, htq,
      List.filterMap_congr fun u hu => hcong u (hAid u hu),
      List.filterMap_congr fun u hu => hcong u (hBid u hu)]
    dsimp only
    rw [List.foldl_append, List.foldl_append, List.foldl_cons]
    congr 1
    exact (foldl_max_comm _ acc t.priority).symm
  -- reduce the move itself
  have hmove : moveTaskDown allTasks cd d s =
      moveTaskToDay allTasks s d (d + 1) 0 := by
    simp only [moveTaskDown, hfind]
    rw [if_neg (by simp [hcal]), if_neg hlast]
  have hxid : ({ t with date := d + 1 } : Task).id = s := htid
  have hmove2 : moveTaskToDay allTasks s d (d + 1) 0 =
      allTasks.set j { t with date := d + 1, priority :=
        ((allTasks.filterMap fun u =>
          if u.id ≠ s ∧ trunc u.date = trunc (d + 1) ∧ u.isCalendar = false
          then some u.priority else none).foldl max (max 0 t.priority)) + 1 } := by
    simp only [moveTaskToDay]
    rw [if_neg (by decide : ¬ (((0 : Int) == -1) = true))]
    rw [hts1, hM 0,
      updateFirst_eq_set_of_findTask (findTask_set hft _ hxid),
      List.set_set]
  refine ⟨j, hj, _, hget, hmove.trans hmove2, by omega, ?_⟩
  intro u hu hus hud hucal
  have humem : u.priority ∈ (allTasks.filterMap fun u =>
      if u.id ≠ s ∧ trunc u.date = trunc (d + 1) ∧ u.isCalendar = false
      then some u.priority else none) :=
    List.mem_filterMap.mpr ⟨u, hu, by simp [hus, hud, hucal]⟩
  have := mem_le_foldl_max _ (max 0 t.priority) _ humem
  omega

/-- Witness for `moveDown_last_prepend`: the two-task scenario of the
counterexample. -/
theorem moveDown_last_prepend_witness :
    ∃ (j : Nat)
      (hj : j < ([{ id := "a", text := [], done := false, date := 5,
                    isCalendar := false, startTime := 0, priority := 10,
                    createdAt := 0, level := 0 },
                  { id := "b", text := [], done := false, date := 6,
                    isCalendar := false, startTime := 0, priority := 3,
                    createdAt := 0, level := 0 }] : List Task).length)
      (v : Int),
      ([{ id := "a", text := [], done := false, date := 5,
          isCalendar := false, startTime := 0, priority := 10,
          createdAt := 0, level := 0 },
        { id := "b", text := [], done := false, date := 6,
          isCalendar := false, startTime := 0, priority := 3,
          createdAt := 0, level := 0 }] : List Task).get ⟨j, hj⟩ =
        { id := "a", text := [], done := false, date := 5,
          isCalendar := false, startTime := 0, priority := 10,
          createdAt := 0, level := 0 } ∧
      moveTaskDown
        [{ id := "a", text := [], done := false, date := 5,
           isCalendar := false, startTime := 0, priority := 10,
           createdAt := 0, level := 0 },
         { id := "b", text := [], done := false, date := 6,
           isCalendar := false, startTime := 0, priority := 3,
           createdAt := 0, level := 0 }] 0 5 "a" =
        [{ id := "a", text := [], done := false, date := 5,
           isCalendar := false, startTime := 0, priority := 10,
           createdAt := 0, level := 0 },
         { id := "b", text := [], done := false, date := 6,
           isCalendar := false, startTime := 0, priority := 3,
           createdAt := 0, level := 0 }].set j
          { id := "a", text := [], done := false, date := 5 + 1,
            isCalendar := false, startTime := 0, priority := v,
            createdAt := 0, level := 0 } ∧
      v = 1 + (([{ id := "a", text := [], done := false, date := 5,
                   isCalendar := false, startTime := 0, priority := 10,
                   createdAt := 0, level := 0 },
                 { id := "b", text := [], done := false, date := 6,
                   isCalendar := false, startTime := 0, priority := 3,
                   createdAt := 0, level := 0 }] : List Task).filterMap fun u =>
          if u.id ≠ "a" ∧ trunc u.date = trunc (5 + 1) ∧ u.isCalendar = false
          then some u.priority else none).foldl max (max 0 10) ∧
      ∀ u ∈ ([{ id := "a", text := [], done := false, date := 5,
                isCalendar := false, startTime := 0, priority := 10,
                createdAt := 0, level := 0 },
              { id := "b", text := [], done := false, date := 6,
                isCalendar := false, startTime := 0, priority := 3,
                createdAt := 0, level := 0 }] : List Task), u.id ≠ "a" →
        trunc u.date = trunc (5 + 1) → u.isCalendar = false →
        u.priority < v :=
  moveDown_last_prepend
    [{ id := "a", text := [], done := false, date := 5, isCalendar := false,
       startTime := 0, priority := 10, createdAt := 0, level := 0 },
     { id := "b", text := [], done := false, date := 6, isCalendar := false,
       startTime := 0, priority := 3, createdAt := 0, level := 0 }] 0 5 "a" 0
    { id := "a", text := [], done := false, date := 5, isCalendar := false,
      startTime := 0, priority := 10, createdAt := 0, level := 0 }
    (by decide) (by decide) (by decide) (by decide)

end PD
